import Mathlib

/-!
Shallow embedding of `src/lib/chatStore.ts`: a browser-local chat-session
store (load / save / create / append / retitle over a list of sessions
persisted as one JSON blob).

Modelling conventions:
* JSON values are modelled by the inductive `JVal`; JSON numbers are `Int`
  (the store only handles millisecond epoch timestamps).
* The persisted blob (`localStorage` slot under `STORAGE_KEY`) is modelled
  by `Blob`: absent key, present-but-unparsable text, or a parsed value.
  `JSON.stringify` followed by `JSON.parse` is the identity on parsed
  values, so `saveSessions` produces `Blob.value` of the encoded array.
* `Date.now()` and `crypto.randomUUID` are impure; each function that calls
  them takes the result as an explicit parameter (`now : Int`,
  `uuidGen : Option String` where `none` models an environment without
  `crypto.randomUUID`).
* The embedding models the in-browser execution path (the
  `typeof window === "undefined"` early returns guard server-side
  rendering, where every function is a no-op).
* JavaScript field access on a parsed value yields `undefined` for a
  missing key and on any non-object; `jget` returns `none` in those cases.
-/

namespace ChatStore

/-- A parsed JSON value (`JSON.parse` output). Numbers are `Int` since the
store only manipulates ms-epoch timestamps. -/
inductive JVal where
  | jnull : JVal
  | jbool : Bool → JVal
  | num : Int → JVal
  | str : String → JVal
  | arr : List JVal → JVal
  | obj : List (String × JVal) → JVal
deriving Repr

/-- JavaScript truthiness of a parsed JSON value (`NaN` cannot arise from
`JSON.parse`). -/
def truthy : JVal → Bool
  | .jnull => false
  | .jbool b => b
  | .num n => n != 0
  | .str s => s != ""
  | .arr _ => true
  | .obj _ => true

/-- First-match field lookup in a parsed JSON object (objects produced by
`JSON.parse` have distinct keys). -/
def lookupField (k : String) : List (String × JVal) → Option JVal
  | [] => none
  | (k2, v) :: rest => if k2 = k then some v else lookupField k rest

/-- JavaScript property access `v.k` on a parsed value: `none` models
`undefined` (missing key, or any non-object receiver). -/
def jget (v : JVal) (k : String) : Option JVal :=
  match v with
  | .obj fs => lookupField k fs
  | _ => none

/-- The runtime shape of a session after `loadSessions`' "minimal sanity
cleanup": `id`, `createdAt`, `updatedAt` are genuinely typed (enforced by
the filter / `typeof` checks), while `title` and the message array elements
are passed through unvalidated, so they stay raw JSON values. -/
structure ChatSession where
  id : String
  title : JVal
  createdAt : Int
  updatedAt : Int
  messages : List JVal
deriving Repr

/-- The persisted `localStorage` slot under `STORAGE_KEY`: the key may be
absent, hold text that `JSON.parse` rejects, or hold text parsing to `v`.
(The empty string is falsy in JS and also rejected by `JSON.parse`, so it
behaves like `notJson`.) -/
inductive Blob where
  | absent : Blob
  | notJson : String → Blob
  | value : JVal → Blob

/-- `safeParse(raw)`: `null` for a missing/falsy raw string or a parse
error, otherwise the parsed value. -/
def safeParse : Blob → Option JVal
  | .absent => none
  | .notJson _ => none
  | .value v => some v

/-- The filter `(s) => s && typeof s.id === "string"`. -/
def keepEntry (s : JVal) : Bool :=
  truthy s && (match jget s "id" with | some (.str _) => true | _ => false)

/-- The per-entry normalization object literal in `loadSessions`:
`title ?? "Untitled"` (nullish coalescing: only `undefined`/`null` are
replaced), `typeof createdAt === "number" ? createdAt : Date.now()`
(likewise `updatedAt`), `Array.isArray(messages) ? messages : []`.
The `id` default arm is unreachable for entries passing `keepEntry`. -/
def normalizeEntry (now : Int) (s : JVal) : ChatSession :=
  { id := match jget s "id" with | some (.str i) => i | _ => ""
    title := match jget s "title" with
      | none => .str "Untitled"
      | some .jnull => .str "Untitled"
      | some v => v
    createdAt := match jget s "createdAt" with | some (.num n) => n | _ => now
    updatedAt := match jget s "updatedAt" with | some (.num n) => n | _ => now
    messages := match jget s "messages" with | some (.arr ms) => ms | _ => [] }

/-- Output order of `.sort((a, b) => b.updatedAt - a.updatedAt)`: descending
`updatedAt`. -/
def updGe (a b : ChatSession) : Prop := b.updatedAt ≤ a.updatedAt

instance : DecidableRel updGe := fun a b =>
  inferInstanceAs (Decidable (b.updatedAt ≤ a.updatedAt))

instance : IsTotal ChatSession updGe :=
  ⟨fun a b => le_total b.updatedAt a.updatedAt⟩

instance : IsTrans ChatSession updGe :=
  ⟨fun _ _ _ h1 h2 => le_trans h2 h1⟩

/-- `.sort((a, b) => b.updatedAt - a.updatedAt)`: a stable sort by
descending `updatedAt` (ECMAScript `Array.prototype.sort` is stable),
modelled by stable insertion sort. -/
def sortByUpdated (ss : List ChatSession) : List ChatSession :=
  ss.insertionSort updGe

/-- `loadSessions()`: parse the blob; non-array (or failed) parses give
`[]`; otherwise filter out entries without a string `id`, normalize each
field, and sort by `updatedAt` descending. -/
def loadSessions (blob : Blob) (now : Int) : List ChatSession :=
  match safeParse blob with
  | none => []
  | some parsed =>
    match parsed with
    | .arr xs => sortByUpdated ((xs.filter keepEntry).map (normalizeEntry now))
    | _ => []

/-- `JSON.stringify` of one `ChatSession` object, as the value it parses
back to (stringify/parse round-trips parsed JSON values). -/
def encodeSession (s : ChatSession) : JVal :=
  .obj [("id", .str s.id), ("title", s.title), ("createdAt", .num s.createdAt),
        ("updatedAt", .num s.updatedAt), ("messages", .arr s.messages)]

/-- `saveSessions(sessions)`: overwrite the blob with the serialized
collection; the stored text parses back to the encoded array. -/
def saveSessions (sessions : List ChatSession) : Blob :=
  .value (.arr (sessions.map encodeSession))

/-- Message role: `"user" | "assistant"`. -/
inductive Role where
  | user : Role
  | assistant : Role
deriving Repr, DecidableEq

def roleStr : Role → String
  | .user => "user"
  | .assistant => "assistant"

/-- `Omit<Msg, "ts">`: the message argument of `addMessage` (role,
content, optional source list; no timestamp yet). -/
structure MsgIn where
  role : Role
  content : String
  sources : Option (List String)
deriving Repr

/-- The spread `{ ...msg, ts: now }` as a parsed JSON object: the `sources`
key is present only when the optional field is (JS spread copies only own
present keys). -/
def stampMsg (m : MsgIn) (now : Int) : JVal :=
  .obj ([("role", .str (roleStr m.role)), ("content", .str m.content)]
    ++ (match m.sources with
        | some xs => [("sources", .arr (xs.map JVal.str))]
        | none => [])
    ++ [("ts", .num now)])

/-- `newSession(title = "New Chat")`: fresh id (`crypto.randomUUID()` when
available, else `String(Date.now())`), both timestamps set to now, empty
messages. -/
def newSession (uuidGen : Option String) (now : Int)
    (title : String := "New Chat") : ChatSession :=
  { id := match uuidGen with | some u => u | none => toString now
    title := .str title
    createdAt := now
    updatedAt := now
    messages := [] }

/-- `addMessage(sessions, sessionId, msg)`: map over the collection; a
non-matching session is returned as-is, a matching one gets `msg` stamped
with `ts: now` appended and `updatedAt` bumped to `now`. -/
def addMessage (sessions : List ChatSession) (sessionId : String)
    (msg : MsgIn) (now : Int) : List ChatSession :=
  sessions.map fun s =>
    if s.id ≠ sessionId then s
    else { s with messages := s.messages ++ [stampMsg msg now], updatedAt := now }

/-- `setTitle(sessions, sessionId, title)`: map over the collection; a
matching session gets its `title` replaced and `updatedAt` bumped. -/
def setTitle (sessions : List ChatSession) (sessionId : String)
    (title : String) (now : Int) : List ChatSession :=
  sessions.map fun s =>
    if s.id = sessionId then { s with title := .str title, updatedAt := now } else s

/-- The timestamp fields of a raw persisted entry do not themselves violate
`updatedAt ≥ createdAt` relative to the load time `now`: the normalization
in `loadSessions` keeps numeric timestamps as they are and substitutes
`now` for non-numeric ones, so this is exactly the precondition under which
the normalized session satisfies the invariant. -/
def entryTimesOk (now : Int) (e : JVal) : Prop :=
  match jget e "createdAt", jget e "updatedAt" with
  | some (.num c), some (.num u) => c ≤ u
  | some (.num c), _ => c ≤ now
  | _, some (.num u) => now ≤ u
  | _, _ => True

/-! ### Helper lemmas -/

theorem sortByUpdated_perm (ss : List ChatSession) : (sortByUpdated ss).Perm ss :=
  List.perm_insertionSort updGe ss

theorem sortByUpdated_chain (ss : List ChatSession) :
    (sortByUpdated ss).Chain' updGe :=
  (List.sorted_insertionSort updGe ss).chain'

/-- A serialized session always passes the load filter: the encoded object
is truthy and its `id` field is a string. -/
theorem keepEntry_encodeSession (s : ChatSession) : keepEntry (encodeSession s) = true :=
  rfl

/-- Normalization inverts serialization on a session whose `title` is a
string (the well-typed case). -/
theorem normalizeEntry_encodeSession (now : Int) (i t : String) (c u : Int)
    (ms : List JVal) :
    normalizeEntry now (encodeSession ⟨i, .str t, c, u, ms⟩) = ⟨i, .str t, c, u, ms⟩ :=
  rfl

/-- The accumulator of `Nat.toDigitsCore` never shrinks. -/
theorem toDigitsCore_length_le (b fuel : Nat) :
    ∀ (n : Nat) (ds : List Char), ds.length ≤ (Nat.toDigitsCore b fuel n ds).length := by
  induction fuel with
  | zero =>
    intro n ds
    simp only [Nat.toDigitsCore]
    exact Nat.le_refl _
  | succ fuel ih =>
    intro n ds
    simp only [Nat.toDigitsCore]
    split
    · exact Nat.le_succ _
    · exact Nat.le_trans (Nat.le_succ _) (ih (n / b) (_ :: ds))

/-- Decimal digit strings are never empty. -/
theorem toDigits_length_pos (n : Nat) : 0 < (Nat.toDigits 10 n).length := by
  rw [Nat.toDigits]
  simp only [Nat.toDigitsCore]
  split
  · exact Nat.succ_pos _
  · exact Nat.lt_of_lt_of_le (Nat.succ_pos 0) (toDigitsCore_length_le 10 n (n / 10) [_])

/-- `String(n)` for an integer `n` is never the empty string. -/
theorem int_toString_length_pos (n : Int) : 0 < (toString n).length := by
  cases n with
  | ofNat m =>
    show 0 < (Nat.toDigits 10 m).length
    exact toDigits_length_pos m
  | negSucc m =>
    show 0 < (("-" ++ toString (m + 1) : String)).length
    rw [String.length_append]
    have h1 : ("-" : String).length = 1 := rfl
    omega

theorem string_ne_empty_of_length_pos {s : String} (h : 0 < s.length) : s ≠ "" := by
  intro he
  rw [he] at h
  exact absurd h (by decide)

/-! ### Claims -/

/-- **C1.** For every persisted blob state — key absent, value not valid
JSON, or value parsing to something that is not an array — `loadSessions`
returns the empty sequence (and, being a total function, never throws). -/
theorem loadSessions_bad_blob_empty (now : Int) (raw : String) (v : JVal)
    (hv : ∀ xs : List JVal, v ≠ JVal.arr xs) :
    loadSessions Blob.absent now = [] ∧
    loadSessions (Blob.notJson raw) now = [] ∧
    loadSessions (Blob.value v) now = [] := by
  refine ⟨rfl, rfl, ?_⟩
  cases v with
  | arr xs => exact absurd rfl (hv xs)
  | _ => rfl

theorem loadSessions_bad_blob_empty_witness :
    loadSessions Blob.absent 0 = [] ∧
    loadSessions (Blob.notJson "oops") 0 = [] ∧
    loadSessions (Blob.value (JVal.num 42)) 0 = [] :=
  loadSessions_bad_blob_empty 0 "oops" (JVal.num 42)
    (fun _ h => JVal.noConfusion h)

/-- **C3.** For every persisted input, the sequence returned by
`loadSessions` is sorted by `updatedAt` descending: every adjacent pair
`(a, b)` satisfies `a.updatedAt ≥ b.updatedAt`. -/
theorem loadSessions_sorted_desc (blob : Blob) (now : Int) :
    (loadSessions blob now).Chain' (fun a b => b.updatedAt ≤ a.updatedAt) := by
  unfold loadSessions
  cases blob with
  | absent => exact List.chain'_nil
  | notJson raw => exact List.chain'_nil
  | value v =>
    cases v with
    | arr _ => exact sortByUpdated_chain _
    | _ => exact List.chain'_nil

/-- **C5.** `addMessage` with an identifier matching no session returns the
input collection unchanged (and, being total, raises no error). -/
theorem addMessage_unknown_id_noop (S : List ChatSession) (sid : String)
    (m : MsgIn) (now : Int) (habs : ∀ s ∈ S, s.id ≠ sid) :
    addMessage S sid m now = S := by
  induction S with
  | nil => rfl
  | cons s rest ih =>
    have h1 : s.id ≠ sid := habs s (List.mem_cons_self s rest)
    have h2 : addMessage rest sid m now = rest :=
      ih fun x hx => habs x (List.mem_cons_of_mem s hx)
    unfold addMessage at h2 ⊢
    rw [List.map_cons, if_pos h1, h2]

theorem addMessage_unknown_id_noop_witness :
    addMessage [⟨"a", JVal.str "t", 0, 1, []⟩] "b" ⟨Role.user, "hi", none⟩ 9 =
      [⟨"a", JVal.str "t", 0, 1, []⟩] :=
  addMessage_unknown_id_noop _ _ _ _ (by
    intro s hs
    rw [List.mem_singleton] at hs
    subst hs
    decide)

/-- **C4.** When some session carries the target identifier, `addMessage`
keeps the collection's length; at every index whose session matches the
identifier the result has exactly one more message, the new last message is
`msg` stamped with `ts = now`, and the whole session equals the original
with the stamped message appended and `updatedAt := now`; every
non-matching index passes through as the same value. -/
theorem addMessage_known_id (S : List ChatSession) (sid : String) (m : MsgIn)
    (now : Int) (hpres : ∃ s ∈ S, s.id = sid) :
    (addMessage S sid m now).length = S.length ∧
    ∀ (i : Nat) (hi : i < S.length) (hi2 : i < (addMessage S sid m now).length),
      ((S.get ⟨i, hi⟩).id = sid →
        ((addMessage S sid m now).get ⟨i, hi2⟩).messages.length =
            (S.get ⟨i, hi⟩).messages.length + 1 ∧
        ((addMessage S sid m now).get ⟨i, hi2⟩).messages.getLast? =
            some (stampMsg m now) ∧
        (addMessage S sid m now).get ⟨i, hi2⟩ =
          { S.get ⟨i, hi⟩ with
              messages := (S.get ⟨i, hi⟩).messages ++ [stampMsg m now]
              updatedAt := now }) ∧
      ((S.get ⟨i, hi⟩).id ≠ sid →
        (addMessage S sid m now).get ⟨i, hi2⟩ = S.get ⟨i, hi⟩) := by
  clear hpres
  refine ⟨by simp [addMessage], ?_⟩
  intro i hi hi2
  have hmap : (addMessage S sid m now).get ⟨i, hi2⟩ =
      (fun s => if s.id ≠ sid then s
        else { s with messages := s.messages ++ [stampMsg m now], updatedAt := now })
        (S.get ⟨i, hi⟩) := by
    unfold addMessage
    exact List.get_map _
  constructor
  · intro hmatch
    rw [hmap]
    simp only [List.get_eq_getElem] at hmatch
    simp [hmatch]
  · intro hmiss
    rw [hmap]
    simp only [List.get_eq_getElem] at hmiss
    simp [hmiss]

theorem addMessage_known_id_witness :
    ((addMessage [⟨"a", JVal.str "t", 0, 1, []⟩] "a" ⟨Role.user, "hi", none⟩ 5).length = 1) ∧
    ((addMessage [⟨"a", JVal.str "t", 0, 1, []⟩] "a" ⟨Role.user, "hi", none⟩ 5).get ⟨0, by decide⟩ =
      ⟨"a", JVal.str "t", 0, 5, [stampMsg ⟨Role.user, "hi", none⟩ 5]⟩) := by
  have h := addMessage_known_id [⟨"a", JVal.str "t", 0, 1, []⟩] "a"
    ⟨Role.user, "hi", none⟩ 5 ⟨⟨"a", JVal.str "t", 0, 1, []⟩, List.mem_singleton.mpr rfl, rfl⟩
  exact ⟨h.1, ((h.2 0 (by decide) (by decide)).1 rfl).2.2⟩

/-- **C6.** `setTitle` has the same lookup-or-no-op semantics as
`addMessage`: when no session matches the identifier the input collection
is returned unchanged; the length is preserved; a matching index gets its
`title` replaced by the given string and `updatedAt` bumped to `now` while
`id`, `createdAt` and `messages` are kept (record update); a non-matching
index passes through as the same value. -/
theorem setTitle_semantics (S : List ChatSession) (sid t : String) (now : Int) :
    ((∀ s ∈ S, s.id ≠ sid) → setTitle S sid t now = S) ∧
    (setTitle S sid t now).length = S.length ∧
    ∀ (i : Nat) (hi : i < S.length) (hi2 : i < (setTitle S sid t now).length),
      ((S.get ⟨i, hi⟩).id = sid →
        (setTitle S sid t now).get ⟨i, hi2⟩ =
          { S.get ⟨i, hi⟩ with title := JVal.str t, updatedAt := now }) ∧
      ((S.get ⟨i, hi⟩).id ≠ sid →
        (setTitle S sid t now).get ⟨i, hi2⟩ = S.get ⟨i, hi⟩) := by
  refine ⟨?_, by simp [setTitle], ?_⟩
  · intro habs
    induction S with
    | nil => rfl
    | cons s rest ih =>
      have h1 : s.id ≠ sid := habs s (List.mem_cons_self s rest)
      have h2 : setTitle rest sid t now = rest :=
        ih fun x hx => habs x (List.mem_cons_of_mem s hx)
      unfold setTitle at h2 ⊢
      rw [List.map_cons, if_neg h1, h2]
  · intro i hi hi2
    have hmap : (setTitle S sid t now).get ⟨i, hi2⟩ =
        (fun s => if s.id = sid then { s with title := JVal.str t, updatedAt := now } else s)
          (S.get ⟨i, hi⟩) := by
      unfold setTitle
      exact List.get_map _
    constructor
    · intro hmatch
      rw [hmap]
      simp only [hmatch, if_true]
    · intro hmiss
      rw [hmap]
      simp only [hmiss, if_false]

theorem setTitle_semantics_witness :
    (setTitle [⟨"a", JVal.str "t", 0, 1, []⟩] "b" "t2" 9 = [⟨"a", JVal.str "t", 0, 1, []⟩]) ∧
    ((setTitle [⟨"a", JVal.str "t", 0, 1, []⟩] "a" "t2" 9).get ⟨0, by decide⟩ =
      ⟨"a", JVal.str "t2", 0, 9, []⟩) := by
  constructor
  · exact (setTitle_semantics [⟨"a", JVal.str "t", 0, 1, []⟩] "b" "t2" 9).1 (by
      intro s hs
      rw [List.mem_singleton] at hs
      subst hs
      decide)
  · exact ((setTitle_semantics [⟨"a", JVal.str "t", 0, 1, []⟩] "a" "t2" 9).2.2
      0 (by decide) (by decide)).1 rfl

/-- **C10.** When several sessions share the same identifier (possible
under the timestamp fallback generator), `addMessage` appends the stamped
message and bumps `updatedAt` at *every* matching index — not only the
first — and `setTitle` likewise retitles and bumps every matching index. -/
theorem duplicate_ids_all_updated (S : List ChatSession) (sid t : String)
    (m : MsgIn) (now : Int) :
    ∀ (i : Nat) (hi : i < S.length)
      (hia : i < (addMessage S sid m now).length)
      (hit : i < (setTitle S sid t now).length),
      (S.get ⟨i, hi⟩).id = sid →
        ((addMessage S sid m now).get ⟨i, hia⟩).messages =
            (S.get ⟨i, hi⟩).messages ++ [stampMsg m now] ∧
        ((addMessage S sid m now).get ⟨i, hia⟩).updatedAt = now ∧
        ((setTitle S sid t now).get ⟨i, hit⟩).title = JVal.str t ∧
        ((setTitle S sid t now).get ⟨i, hit⟩).updatedAt = now := by
  intro i hi hia hit hmatch
  have hmapa : (addMessage S sid m now).get ⟨i, hia⟩ =
      (fun s => if s.id ≠ sid then s
        else { s with messages := s.messages ++ [stampMsg m now], updatedAt := now })
        (S.get ⟨i, hi⟩) := by
    unfold addMessage
    exact List.get_map _
  have hmapt : (setTitle S sid t now).get ⟨i, hit⟩ =
      (fun s => if s.id = sid then { s with title := JVal.str t, updatedAt := now } else s)
        (S.get ⟨i, hi⟩) := by
    unfold setTitle
    exact List.get_map _
  rw [hmapa, hmapt]
  simp only [List.get_eq_getElem] at hmatch
  simp [hmatch]

theorem duplicate_ids_all_updated_witness :
    (((addMessage [⟨"7", JVal.str "x", 0, 1, []⟩, ⟨"7", JVal.str "y", 0, 2, []⟩] "7"
        ⟨Role.assistant, "ok", none⟩ 9).get ⟨0, by decide⟩).updatedAt = 9) ∧
    (((addMessage [⟨"7", JVal.str "x", 0, 1, []⟩, ⟨"7", JVal.str "y", 0, 2, []⟩] "7"
        ⟨Role.assistant, "ok", none⟩ 9).get ⟨1, by decide⟩).updatedAt = 9) ∧
    (((setTitle [⟨"7", JVal.str "x", 0, 1, []⟩, ⟨"7", JVal.str "y", 0, 2, []⟩] "7" "z" 9).get
        ⟨0, by decide⟩).title = JVal.str "z") ∧
    (((setTitle [⟨"7", JVal.str "x", 0, 1, []⟩, ⟨"7", JVal.str "y", 0, 2, []⟩] "7" "z" 9).get
        ⟨1, by decide⟩).title = JVal.str "z") := by
  have h0 := duplicate_ids_all_updated
    [⟨"7", JVal.str "x", 0, 1, []⟩, ⟨"7", JVal.str "y", 0, 2, []⟩] "7" "z"
    ⟨Role.assistant, "ok", none⟩ 9 0 (by decide) (by decide) (by decide) rfl
  have h1 := duplicate_ids_all_updated
    [⟨"7", JVal.str "x", 0, 1, []⟩, ⟨"7", JVal.str "y", 0, 2, []⟩] "7" "z"
    ⟨Role.assistant, "ok", none⟩ 9 1 (by decide) (by decide) (by decide) rfl
  exact ⟨h0.2.1, h1.2.1, h0.2.2.1, h1.2.2.1⟩

/-- **C7.** `newSession` (with the default title `"New Chat"`) returns a
session with `createdAt = updatedAt`, an empty message list, and an
identifier that is the random UUID when one is available, otherwise the
stringified current time — and is in either case a non-empty string
(modelling that `crypto.randomUUID()` never returns the empty string). -/
theorem newSession_spec (uuidGen : Option String) (now : Int)
    (huuid : ∀ u, uuidGen = some u → u ≠ "") :
    (newSession uuidGen now).title = JVal.str "New Chat" ∧
    (newSession uuidGen now).createdAt = (newSession uuidGen now).updatedAt ∧
    (newSession uuidGen now).messages = [] ∧
    (∀ u, uuidGen = some u → (newSession uuidGen now).id = u) ∧
    (uuidGen = none → (newSession uuidGen now).id = toString now) ∧
    (newSession uuidGen now).id ≠ "" := by
  refine ⟨rfl, rfl, rfl, ?_, ?_, ?_⟩
  · intro u hu
    subst hu
    rfl
  · intro hn
    subst hn
    rfl
  · cases uuidGen with
    | some u => exact huuid u rfl
    | none => exact string_ne_empty_of_length_pos (int_toString_length_pos now)

theorem newSession_spec_witness :
    ((newSession (some "uuid-1") 5).title = JVal.str "New Chat" ∧
      (newSession (some "uuid-1") 5).createdAt = (newSession (some "uuid-1") 5).updatedAt ∧
      (newSession (some "uuid-1") 5).messages = [] ∧
      (newSession (some "uuid-1") 5).id = "uuid-1" ∧
      (newSession (some "uuid-1") 5).id ≠ "") ∧
    ((newSession none 5).id = "5" ∧ (newSession none 5).id ≠ "") := by
  have h1 := newSession_spec (some "uuid-1") 5 (by
    intro u h
    injection h with h2
    subst h2
    decide)
  have h2 := newSession_spec none 5 (by intro u h; exact Option.noConfusion h)
  exact ⟨⟨h1.1, h1.2.1, h1.2.2.1, h1.2.2.2.1 "uuid-1" rfl, h1.2.2.2.2.2⟩,
    ⟨h2.2.2.2.2.1 rfl, h2.2.2.2.2.2⟩⟩

/-- **C8.** Round-trip: loading the blob written by `saveSessions S`
reproduces `S` up to normalization — exactly `S` when every session is
well-formed (its `title` is a string, as the TypeScript type promises) —
followed by the descending-`updatedAt` sort. -/
theorem loadSessions_saveSessions_roundtrip (S : List ChatSession) (now : Int)
    (hwf : ∀ s ∈ S, ∃ t, s.title = JVal.str t) :
    loadSessions (saveSessions S) now = sortByUpdated S := by
  show sortByUpdated (((S.map encodeSession).filter keepEntry).map (normalizeEntry now)) =
    sortByUpdated S
  congr 1
  have hfilter : (S.map encodeSession).filter keepEntry = S.map encodeSession :=
    List.filter_eq_self.mpr (by
      intro a ha
      obtain ⟨s, _, rfl⟩ := List.mem_map.mp ha
      exact keepEntry_encodeSession s)
  rw [hfilter, List.map_map]
  have hid : ∀ s ∈ S, (normalizeEntry now ∘ encodeSession) s = id s := by
    intro s hs
    obtain ⟨t, ht⟩ := hwf s hs
    obtain ⟨i, ti, c, u, ms⟩ := s
    change ti = JVal.str t at ht
    subst ht
    exact normalizeEntry_encodeSession now i t c u ms
  rw [List.map_congr_left hid, List.map_id]

theorem loadSessions_saveSessions_roundtrip_witness :
    loadSessions
        (saveSessions [⟨"a", JVal.str "A", 0, 1, []⟩, ⟨"b", JVal.str "B", 0, 2, []⟩]) 9 =
      [⟨"b", JVal.str "B", 0, 2, []⟩, ⟨"a", JVal.str "A", 0, 1, []⟩] := by
  have h := loadSessions_saveSessions_roundtrip
    [⟨"a", JVal.str "A", 0, 1, []⟩, ⟨"b", JVal.str "B", 0, 2, []⟩] 9 (by
      intro s hs
      rw [List.mem_cons, List.mem_singleton] at hs
      rcases hs with rfl | rfl
      · exact ⟨"A", rfl⟩
      · exact ⟨"B", rfl⟩)
  rw [h]
  rfl

/-- **C2 counterexample.** The claim says a present-but-invalid `title`
becomes `"Untitled"`, but `title ?? "Untitled"` only replaces a
missing/null title: an entry with the numeric title `5` is loaded with
title `5`, not `"Untitled"`. -/
theorem loadSessions_invalid_title_kept :
    (loadSessions
        (Blob.value (JVal.arr [JVal.obj [("id", JVal.str "a"), ("title", JVal.num 5)]])) 7).map
        ChatSession.title = [JVal.num 5] ∧
    JVal.num 5 ≠ JVal.str "Untitled" :=
  ⟨rfl, fun h => JVal.noConfusion h⟩

/-- **C2 (amended).** `loadSessions` drops every entry without a string
identifier (the result is a permutation of the kept, normalized entries)
and normalizes fields as follows: a *missing or null* `title` becomes
`"Untitled"` while any other present title value is kept as-is (even a
non-string one); a missing or non-numeric `createdAt`/`updatedAt` becomes
the current time and a numeric one is kept; a missing or non-array
`messages` becomes the empty sequence and an array is kept. -/
theorem loadSessions_normalization (now : Int) (xs : List JVal) :
    (loadSessions (Blob.value (JVal.arr xs)) now).Perm
        ((xs.filter keepEntry).map (normalizeEntry now)) ∧
    (∀ e : JVal, jget e "title" = none →
      (normalizeEntry now e).title = JVal.str "Untitled") ∧
    (∀ e : JVal, jget e "title" = some JVal.jnull →
      (normalizeEntry now e).title = JVal.str "Untitled") ∧
    (∀ (e v : JVal), jget e "title" = some v → v ≠ JVal.jnull →
      (normalizeEntry now e).title = v) ∧
    (∀ e : JVal, (∀ n : Int, jget e "createdAt" ≠ some (JVal.num n)) →
      (normalizeEntry now e).createdAt = now) ∧
    (∀ (e : JVal) (n : Int), jget e "createdAt" = some (JVal.num n) →
      (normalizeEntry now e).createdAt = n) ∧
    (∀ e : JVal, (∀ n : Int, jget e "updatedAt" ≠ some (JVal.num n)) →
      (normalizeEntry now e).updatedAt = now) ∧
    (∀ (e : JVal) (n : Int), jget e "updatedAt" = some (JVal.num n) →
      (normalizeEntry now e).updatedAt = n) ∧
    (∀ e : JVal, (∀ ms : List JVal, jget e "messages" ≠ some (JVal.arr ms)) →
      (normalizeEntry now e).messages = []) ∧
    (∀ (e : JVal) (ms : List JVal), jget e "messages" = some (JVal.arr ms) →
      (normalizeEntry now e).messages = ms) := by
  refine ⟨sortByUpdated_perm _, ?_, ?_, ?_, ?_, ?_, ?_, ?_, ?_, ?_⟩
  · intro e h
    simp [normalizeEntry, h]
  · intro e h
    simp [normalizeEntry, h]
  · intro e v h hv
    cases v <;> first
      | exact absurd rfl hv
      | simp [normalizeEntry, h]
  · intro e h
    cases hc : jget e "createdAt" with
    | none => simp [normalizeEntry, hc]
    | some v =>
      cases v <;> first
        | exact absurd hc (h _)
        | simp [normalizeEntry, hc]
  · intro e n h
    simp [normalizeEntry, h]
  · intro e h
    cases hu : jget e "updatedAt" with
    | none => simp [normalizeEntry, hu]
    | some v =>
      cases v <;> first
        | exact absurd hu (h _)
        | simp [normalizeEntry, hu]
  · intro e n h
    simp [normalizeEntry, h]
  · intro e h
    cases hm : jget e "messages" with
    | none => simp [normalizeEntry, hm]
    | some v =>
      cases v <;> first
        | exact absurd hm (h _)
        | simp [normalizeEntry, hm]
  · intro e ms h
    simp [normalizeEntry, h]

theorem loadSessions_normalization_witness :
    (loadSessions (Blob.value (JVal.arr [JVal.obj [("id", JVal.str "a")]])) 7).Perm
        (([JVal.obj [("id", JVal.str "a")]].filter keepEntry).map (normalizeEntry 7)) ∧
    (normalizeEntry 7 (JVal.obj [("id", JVal.str "a")])).title = JVal.str "Untitled" ∧
    (normalizeEntry 7 (JVal.obj [("id", JVal.str "a"), ("title", JVal.num 5)])).title =
      JVal.num 5 ∧
    (normalizeEntry 7 (JVal.obj [("id", JVal.str "a")])).createdAt = 7 ∧
    (normalizeEntry 7 (JVal.obj [("id", JVal.str "a"), ("createdAt", JVal.num 3)])).createdAt =
      3 ∧
    (normalizeEntry 7 (JVal.obj [("id", JVal.str "a")])).messages = [] := by
  obtain ⟨hp, ht1, _, ht3, hc1, hc2, _, _, hm1, _⟩ :=
    loadSessions_normalization 7 [JVal.obj [("id", JVal.str "a")]]
  refine ⟨hp, ht1 _ rfl, ht3 _ _ rfl (fun hx => JVal.noConfusion hx), ?_, ?_, ?_⟩
  · exact hc1 _ (fun n hx => Option.noConfusion hx)
  · exact hc2 _ 3 rfl
  · exact hm1 _ (fun ms hx => Option.noConfusion hx)

/-- A normalized entry satisfies `updatedAt ≥ createdAt` exactly when its
raw timestamp fields did not violate it relative to the load time. -/
theorem normalizeEntry_timesOk (now : Int) (e : JVal) (hok : entryTimesOk now e) :
    (normalizeEntry now e).createdAt ≤ (normalizeEntry now e).updatedAt := by
  unfold entryTimesOk at hok
  cases hc : jget e "createdAt" with
  | none =>
    cases hu : jget e "updatedAt" with
    | none => simp [normalizeEntry, hc, hu]
    | some u =>
      rw [hc, hu] at hok
      cases u <;> simp [normalizeEntry, hc, hu] <;> simpa using hok
  | some c =>
    cases hc2 : c with
    | num cn =>
      cases hu : jget e "updatedAt" with
      | none =>
        rw [hc, hc2, hu] at hok
        simp [normalizeEntry, hc, hc2, hu]
        simpa using hok
      | some u =>
        rw [hc, hc2, hu] at hok
        cases u <;> simp [normalizeEntry, hc, hc2, hu] <;> simpa using hok
    | _ =>
      cases hu : jget e "updatedAt" with
      | none => simp [normalizeEntry, hc, hc2, hu]
      | some u =>
        rw [hc, hc2, hu] at hok
        cases u <;> simp [normalizeEntry, hc, hc2, hu] <;> simpa using hok

/-- **C9 counterexample.** The claim says every session in the output of
`loadSessions` satisfies `updatedAt ≥ createdAt` regardless of the
persisted data, but numeric timestamps pass through unvalidated: an entry
persisted with `createdAt = 200, updatedAt = 100` is loaded exactly so,
violating the invariant. -/
theorem loadSessions_invariant_violated :
    loadSessions
        (Blob.value (JVal.arr [JVal.obj
          [("id", JVal.str "a"), ("createdAt", JVal.num 200), ("updatedAt", JVal.num 100)]]))
        0 =
      [⟨"a", JVal.str "Untitled", 200, 100, []⟩] ∧
    ¬ ((100 : Int) ≥ (200 : Int)) :=
  ⟨rfl, by decide⟩

/-- **C9 (amended).** `newSession` establishes `updatedAt ≥ createdAt`
(with equality); `addMessage` and `setTitle` preserve it for collections
whose sessions already satisfy it and whose `createdAt` is not in the
future; and every session in the output of `loadSessions` satisfies it
*provided* the persisted numeric timestamp fields do not themselves
violate it relative to the load time (`loadSessions` does not re-establish
the invariant in general: numeric timestamps pass through unvalidated). -/
theorem invariant_updatedAt_ge_createdAt (uuidGen : Option String)
    (n1 n2 n3 : Int) (S : List ChatSession) (sid t : String) (m : MsgIn)
    (blob : Blob)
    (hS : ∀ s ∈ S, s.createdAt ≤ s.updatedAt ∧ s.createdAt ≤ n2)
    (hblob : ∀ xs, blob = Blob.value (JVal.arr xs) → ∀ e ∈ xs, entryTimesOk n3 e) :
    (newSession uuidGen n1).createdAt ≤ (newSession uuidGen n1).updatedAt ∧
    (∀ s ∈ addMessage S sid m n2, s.createdAt ≤ s.updatedAt) ∧
    (∀ s ∈ setTitle S sid t n2, s.createdAt ≤ s.updatedAt) ∧
    (∀ s ∈ loadSessions blob n3, s.createdAt ≤ s.updatedAt) := by
  refine ⟨le_refl _, ?_, ?_, ?_⟩
  · intro s hs
    unfold addMessage at hs
    rw [List.mem_map] at hs
    obtain ⟨s0, hs0, rfl⟩ := hs
    by_cases h : s0.id = sid
    · simp only [h, ne_eq, not_true_eq_false, if_false]
      exact (hS s0 hs0).2
    · simp only [ne_eq, h, not_false_eq_true, if_true]
      exact (hS s0 hs0).1
  · intro s hs
    unfold setTitle at hs
    rw [List.mem_map] at hs
    obtain ⟨s0, hs0, rfl⟩ := hs
    by_cases h : s0.id = sid
    · simp only [h, if_true]
      exact (hS s0 hs0).2
    · simp only [h, if_false]
      exact (hS s0 hs0).1
  · intro s hs
    cases blob with
    | absent => exact absurd hs (List.not_mem_nil s)
    | notJson raw => exact absurd hs (List.not_mem_nil s)
    | value v =>
      cases v with
      | arr xs =>
        have hs2 : s ∈ (xs.filter keepEntry).map (normalizeEntry n3) :=
          (sortByUpdated_perm _).subset hs
        rw [List.mem_map] at hs2
        obtain ⟨e, he, rfl⟩ := hs2
        exact normalizeEntry_timesOk n3 e (hblob xs rfl e (List.mem_of_mem_filter he))
      | jnull => exact absurd hs (List.not_mem_nil s)
      | jbool b => exact absurd hs (List.not_mem_nil s)
      | num n => exact absurd hs (List.not_mem_nil s)
      | str st => exact absurd hs (List.not_mem_nil s)
      | obj fs => exact absurd hs (List.not_mem_nil s)

theorem invariant_updatedAt_ge_createdAt_witness :
    (newSession (some "u") 3).createdAt ≤ (newSession (some "u") 3).updatedAt ∧
    (((addMessage [⟨"a", JVal.str "t", 0, 1, []⟩] "a" ⟨Role.user, "hi", none⟩ 5).get
        ⟨0, by decide⟩).createdAt ≤
      ((addMessage [⟨"a", JVal.str "t", 0, 1, []⟩] "a" ⟨Role.user, "hi", none⟩ 5).get
        ⟨0, by decide⟩).updatedAt) ∧
    (((setTitle [⟨"a", JVal.str "t", 0, 1, []⟩] "a" "z" 5).get ⟨0, by decide⟩).createdAt ≤
      ((setTitle [⟨"a", JVal.str "t", 0, 1, []⟩] "a" "z" 5).get ⟨0, by decide⟩).updatedAt) ∧
    (((loadSessions (Blob.value (JVal.arr [JVal.obj
          [("id", JVal.str "b"), ("createdAt", JVal.num 2), ("updatedAt", JVal.num 4)]])) 3).get
        ⟨0, by decide⟩).createdAt ≤
      ((loadSessions (Blob.value (JVal.arr [JVal.obj
          [("id", JVal.str "b"), ("createdAt", JVal.num 2), ("updatedAt", JVal.num 4)]])) 3).get
        ⟨0, by decide⟩).updatedAt) := by
  obtain ⟨h1, h2, h3, h4⟩ := invariant_updatedAt_ge_createdAt (some "u") 3 5 3
    [⟨"a", JVal.str "t", 0, 1, []⟩] "a" "z" ⟨Role.user, "hi", none⟩
    (Blob.value (JVal.arr [JVal.obj
      [("id", JVal.str "b"), ("createdAt", JVal.num 2), ("updatedAt", JVal.num 4)]]))
    (by
      intro s hs
      rw [List.mem_singleton] at hs
      subst hs
      exact ⟨by decide, by decide⟩)
    (by
      intro xs hxs e he
      injection hxs with h1
      injection h1 with h2
      subst h2
      rw [List.mem_singleton] at he
      subst he
      exact (by decide : (2 : Int) ≤ 4))
  exact ⟨h1, h2 _ (List.get_mem _ _ _), h3 _ (List.get_mem _ _ _), h4 _ (List.get_mem _ _ _)⟩

end ChatStore
